import Mathlib

/-!
# Spotfly catalog import/migration pipeline — verification development

Shallow embedding of the catalog import and storage-migration pipeline
(`scripts/import-music/*` and the standalone storage-migration script) in
Lean 4, together with proofs of the behavioural properties claimed for it.

Conventions of the embedding:

* JavaScript strings are Lean `String`s; JS truthiness of a string is
  "non-empty", and a possibly-`undefined` string field is `Option String`
  (`none` = `undefined`).
* Every network / Firestore / Storage effect is a parameter of the function
  that performs it (an "environment" record of pure functions): a failed
  `fetch`/upload is `none` or an explicit outcome constructor, mirroring the
  source's catch-and-return-null style.
* Async code is embedded sequentially in source order; `await`ed results are
  ordinary values.
-/

namespace Spotfly

/-! ## JavaScript-semantics helpers -/

/-- JS `a || d` for strings: an empty string is falsy. -/
def jsOr (s d : String) : String := if s = "" then d else s

/-- JS `a || d` where `a : string | undefined` (`none` = `undefined`). -/
def jsOrOpt (o : Option String) (d : String) : String :=
  match o with
  | none => d
  | some s => jsOr s d

/-- JS truthiness of a `string | undefined` value. -/
def jsTruthyOpt (o : Option String) : Bool :=
  match o with
  | none => false
  | some s => s ≠ ""

/-- JS `n || d` for numbers (`0` is falsy; `none` = `undefined`). -/
def jsOrInt (o : Option Int) (d : Int) : Int :=
  match o with
  | none => d
  | some v => if v = 0 then d else v

/-- JS `s.substring(0, n)` (by character count). -/
def jsSubstrTo (s : String) (n : Nat) : String := ⟨s.data.take n⟩

/-- Does `l` start with `pre`? (helper for the JS `includes` model). -/
def listStartsWith : List Char → List Char → Bool
  | _, [] => true
  | [], _ :: _ => false
  | a :: as, b :: bs => a = b && listStartsWith as bs

/-- Does `l` contain `sub` as a contiguous run? -/
def listContainsSub (l sub : List Char) : Bool :=
  match l with
  | [] => listStartsWith [] sub
  | x :: xs => listStartsWith (x :: xs) sub || listContainsSub xs sub

/-- JS `s.includes(sub)`. -/
def jsIncludes (s sub : String) : Bool := listContainsSub s.data sub.data

/-- JS `s.endsWith(suffix)`. -/
def jsEndsWith (s suffix : String) : Bool :=
  listStartsWith s.data.reverse suffix.data.reverse

/-- JS `s.toLowerCase()` (character by character). -/
def jsToLower (s : String) : String := ⟨s.data.map Char.toLower⟩

theorem jsSubstrTo_length (s : String) (n : Nat) :
    (jsSubstrTo s n).length = min n s.length := by
  show (s.data.take n).length = min n s.data.length
  exact List.length_take n s.data

/-- Structural worker for `chunksAux`: `fuel` bounds the recursion depth and
is always at least the list's length at the call sites. -/
def chunksFuel (k : Nat) : Nat → List α → List (List α)
  | _, [] => []
  | 0, _ :: _ => []
  | fuel + 1, x :: xs => (x :: xs).take (k + 1) :: chunksFuel k fuel (xs.drop k)

/-- Chunks of size `k + 1`, in order:
`chunksAux k l` models JS `for (i = 0; i < l.length; i += k+1) l.slice(i, i+k+1)`. -/
def chunksAux (k : Nat) (l : List α) : List (List α) := chunksFuel k l.length l

theorem chunksFuel_flatten (k : Nat) :
    ∀ (n : Nat) (l : List α), l.length ≤ n → (chunksFuel k n l).flatten = l := by
  intro n
  induction n with
  | zero =>
    intro l h
    have : l = [] := List.eq_nil_of_length_eq_zero (Nat.le_zero.mp h)
    subst this
    simp [chunksFuel]
  | succ n ih =>
    intro l h
    match l with
    | [] => simp [chunksFuel]
    | x :: xs =>
      rw [chunksFuel]
      have hd : (xs.drop k).length ≤ n := by
        simp only [List.length_drop]
        simp only [List.length_cons] at h
        omega
      rw [List.flatten_cons, ih (xs.drop k) hd]
      have : xs.drop k = (x :: xs).drop (k + 1) := by simp [List.drop_succ_cons]
      rw [this, List.take_append_drop]

/-- The chunks concatenate back to the original list. -/
theorem chunksAux_flatten (k : Nat) (l : List α) : (chunksAux k l).flatten = l :=
  chunksFuel_flatten k l.length l le_rfl

theorem chunksFuel_length (k : Nat) :
    ∀ (n : Nat) (l : List α), l.length ≤ n →
      (chunksFuel k n l).length = (l.length + k) / (k + 1) := by
  intro n
  induction n with
  | zero =>
    intro l h
    have : l = [] := List.eq_nil_of_length_eq_zero (Nat.le_zero.mp h)
    subst this
    simp [chunksFuel, Nat.div_eq_of_lt (Nat.lt_succ_self k)]
  | succ n ih =>
    intro l h
    match l with
    | [] => simp [chunksFuel, Nat.div_eq_of_lt (Nat.lt_succ_self k)]
    | x :: xs =>
      rw [chunksFuel]
      have hd : (xs.drop k).length ≤ n := by
        simp only [List.length_drop]
        simp only [List.length_cons] at h
        omega
      rw [List.length_cons, ih (xs.drop k) hd]
      simp only [List.length_drop, List.length_cons]
      rcases le_or_lt k xs.length with hk | hk
      · rw [Nat.sub_add_cancel hk]
        have : xs.length + 1 + k = xs.length + (k + 1) := by omega
        rw [this, Nat.add_div_right _ (Nat.succ_pos k)]
      · have h0 : xs.length - k = 0 := Nat.sub_eq_zero_of_le (Nat.le_of_lt hk)
        rw [h0]
        have hlhs : (0 + k) / (k + 1) = 0 := by
          apply Nat.div_eq_of_lt; omega
        have hrhs : (xs.length + 1 + k) / (k + 1) = 1 := by
          apply Nat.div_eq_of_lt_le <;> omega
        omega

/-- The number of chunks is `⌈|l| / (k+1)⌉`. -/
theorem chunksAux_length (k : Nat) (l : List α) :
    (chunksAux k l).length = (l.length + k) / (k + 1) :=
  chunksFuel_length k l.length l le_rfl

/-- A `foldl` preserves any invariant its step preserves. -/
theorem foldl_preserve {A B : Type _} {f : A → B → A} (P : A → Prop)
    (h : ∀ a b, P a → P (f a b)) :
    ∀ (l : List B) (a : A), P a → P (l.foldl f a) := by
  intro l
  induction l with
  | nil => intro a ha; simpa using ha
  | cons b bs ih => intro a ha; exact ih (f a b) (h a b ha)

/-! ## Data model (`scripts/import-music/types.ts`) -/

/-- The canonical catalog record (`TrackRecord` in `types.ts`). -/
structure TrackRecord where
  id : String
  title : String
  artist : String
  artistId : String
  album : String
  albumId : String
  duration : Int
  artwork : String
  audioUrl : String
  isLocal : Bool
  genre : String
  license : String
  uploadedBy : String
  uploadedByName : String
  titleLower : String
  originalAudioUrl : Option String := none
  originalArtwork : Option String := none
deriving DecidableEq

/-- A source adapter's transient aggregate (`SourceResult` in `types.ts`). -/
structure SourceResult where
  sourceName : String
  tracks : List TrackRecord
  errors : List String
deriving DecidableEq

/-- Per-source run summary (`ImportStats` in `types.ts`). -/
structure ImportStats where
  source : String
  fetched : Nat
  newTracks : Nat
  skippedDuplicates : Nat
  errors : Nat
deriving DecidableEq

/-! ## Record normalizer (`scripts/import-music/utils.ts`) -/

/-- The argument of `sanitizeTrack`: `Partial<TrackRecord> & {id, audioUrl}`.
Optional fields are `none` when absent in the partial object. -/
structure PartialTrack where
  id : String
  audioUrl : String
  title : Option String := none
  artist : Option String := none
  artistId : Option String := none
  album : Option String := none
  albumId : Option String := none
  duration : Option Int := none
  artwork : Option String := none
  genre : Option String := none
  license : Option String := none
deriving DecidableEq

/-- `sanitizeTrack` from `utils.ts`: fills every optional field with its
documented default and derives `titleLower`. -/
def sanitizeTrack (p : PartialTrack) : TrackRecord :=
  { id := p.id
    title := jsOrOpt p.title "Unknown Title"
    artist := jsOrOpt p.artist "Unknown Artist"
    artistId := jsOrOpt p.artistId ""
    album := jsOrOpt p.album "Singles"
    albumId := jsOrOpt p.albumId ""
    duration := jsOrInt p.duration 0
    artwork := jsOrOpt p.artwork
      "https://via.placeholder.com/300x300.png?text=No+Cover"
    audioUrl := p.audioUrl
    isLocal := false
    genre := jsOrOpt p.genre "Other"
    license := jsOrOpt p.license "Creative Commons"
    uploadedBy := "system-import"
    uploadedByName := "Spotfly Bot"
    titleLower := jsToLower (jsOrOpt p.title "unknown title") }

/-- `validateTrack` from `utils.ts`. -/
def validateTrack (track : TrackRecord) : Bool :=
  if track.id = "" ∨ track.id.length > 128 then false
  else if track.audioUrl = "" ∨ ¬ track.audioUrl.startsWith "http" then false
  else if track.title = "" then false
  else true

/-- **C7.** For every partial track input `x` (including inputs whose title is
absent or empty), `sanitizeTrack(x).titleLower` equals
`sanitizeTrack(x).title.toLowerCase()`. -/
theorem sanitizeTrack_titleLower (p : PartialTrack) :
    (sanitizeTrack p).titleLower = jsToLower (sanitizeTrack p).title := by
  simp only [sanitizeTrack]
  match p.title with
  | none => decide
  | some s =>
    simp only [jsOrOpt, jsOr]
    by_cases h : s = ""
    · simp [h]; decide
    · simp [h]

/-! ## Media Transfer Engine (`scripts/import-music/storage.ts`) -/

/-- A downloaded asset: buffer bytes plus the response content type
(the result of a successful `downloadToBuffer`). -/
structure Downloaded where
  buffer : List Nat
  contentType : String
deriving DecidableEq

/-- The Storage environment: results of the two kinds of network effect in
`storage.ts`. `download url timeoutMs = none` models every failure mode of
`downloadToBuffer` (non-2xx, timeout, network error); `upload buffer path
contentType = none` models `file.save` throwing. -/
structure MediaEnv where
  download : String → Nat → Option Downloaded
  upload : List Nat → String → String → Option String

/-- `transferToStorage` from `storage.ts`: download then upload, `none` as
soon as either step fails. -/
def transferToStorage (env : MediaEnv) (sourceUrl storagePath contentType : String)
    (timeoutMs : Nat) : Option String :=
  match env.download sourceUrl timeoutMs with
  | none => none
  | some d => env.upload d.buffer storagePath contentType

/-- The value `uploadTrackMedia` resolves with on success. -/
structure MediaResult where
  audioUrl : String
  artwork : String
  originalAudioUrl : String
  originalArtwork : String
deriving DecidableEq

/-- The deterministic audio storage path of a track. -/
def audioPathOf (trackId : String) : String := "spotfly-audio/" ++ trackId ++ ".mp3"

/-- The deterministic artwork storage path of a track. -/
def artworkPathOf (trackId : String) : String := "spotfly-artwork/" ++ trackId ++ ".jpg"

/-- `uploadTrackMedia` from `storage.ts`: audio transfer is mandatory
(60s timeout), artwork transfer is optional (15s timeout, original kept on
failure, not attempted for an empty artwork URL). -/
def uploadTrackMedia (env : MediaEnv) (trackId audioUrl artworkUrl : String) :
    Option MediaResult :=
  match transferToStorage env audioUrl (audioPathOf trackId) "audio/mpeg" 60000 with
  | none => none
  | some newAudioUrl =>
    let newArtworkUrl :=
      if artworkUrl ≠ "" then
        match transferToStorage env artworkUrl (artworkPathOf trackId) "image/jpeg" 15000 with
        | some artResult => artResult
        | none => artworkUrl
      else artworkUrl
    some { audioUrl := newAudioUrl
           artwork := newArtworkUrl
           originalAudioUrl := audioUrl
           originalArtwork := artworkUrl }

/-- A successful `uploadTrackMedia` echoes the pre-transfer URLs. -/
theorem uploadTrackMedia_originals (env : MediaEnv) (trackId audioUrl artworkUrl : String)
    (r : MediaResult) (h : uploadTrackMedia env trackId audioUrl artworkUrl = some r) :
    r.originalAudioUrl = audioUrl ∧ r.originalArtwork = artworkUrl := by
  unfold uploadTrackMedia at h
  cases htr : transferToStorage env audioUrl (audioPathOf trackId) "audio/mpeg" 60000 with
  | none => rw [htr] at h; exact absurd h (by simp)
  | some u =>
    rw [htr] at h
    simp only [Option.some.injEq] at h
    subst h
    exact ⟨rfl, rfl⟩

/-- **C1.** `uploadTrackMedia` returns `none` exactly when the audio
download-or-upload fails; when the audio transfer succeeds it returns a
present result even if the artwork transfer fails, and in that case the
returned `artwork` field is the original input artwork URL. -/
theorem uploadTrackMedia_contract (env : MediaEnv) (trackId audioUrl artworkUrl : String) :
    (uploadTrackMedia env trackId audioUrl artworkUrl = none ↔
      transferToStorage env audioUrl (audioPathOf trackId) "audio/mpeg" 60000 = none)
    ∧ (∀ r, uploadTrackMedia env trackId audioUrl artworkUrl = some r →
        r.originalAudioUrl = audioUrl
        ∧ (transferToStorage env artworkUrl (artworkPathOf trackId) "image/jpeg" 15000 = none →
            r.artwork = artworkUrl)) := by
  constructor
  · unfold uploadTrackMedia
    cases htr : transferToStorage env audioUrl (audioPathOf trackId) "audio/mpeg" 60000 with
    | none => simp
    | some u => simp
  · intro r hr
    refine ⟨(uploadTrackMedia_originals env trackId audioUrl artworkUrl r hr).1, ?_⟩
    intro hart
    unfold uploadTrackMedia at hr
    cases htr : transferToStorage env audioUrl (audioPathOf trackId) "audio/mpeg" 60000 with
    | none => rw [htr] at hr; exact absurd hr (by simp)
    | some u =>
      rw [htr] at hr
      simp only [Option.some.injEq] at hr
      subst hr
      by_cases hempty : artworkUrl = ""
      · simp [hempty]
      · simp only [ne_eq, hempty, not_false_eq_true, if_pos, hart]

/-- An environment in which the audio asset downloads and uploads fine but
every artwork download fails. -/
def envArtworkFails : MediaEnv where
  download := fun url _ => if url = "http://audio.example/a.mp3"
    then some { buffer := [1], contentType := "audio/mpeg" } else none
  upload := fun _ _ _ => some "https://stored.example/audio"

/-- An environment in which every download fails. -/
def envAllFail : MediaEnv where
  download := fun _ _ => none
  upload := fun _ _ _ => none

/-- Witness for C1 at concrete inputs: with `envArtworkFails` the audio
transfer succeeds, the artwork transfer fails, and the returned record keeps
the original artwork URL; with `envAllFail` the operation returns `none`. -/
theorem uploadTrackMedia_contract_witness :
    uploadTrackMedia envAllFail "t1" "http://audio.example/a.mp3" "http://img.example/c.jpg"
      = none
    ∧ uploadTrackMedia envArtworkFails "t1" "http://audio.example/a.mp3" "http://img.example/c.jpg"
      = some { audioUrl := "https://stored.example/audio"
               artwork := "http://img.example/c.jpg"
               originalAudioUrl := "http://audio.example/a.mp3"
               originalArtwork := "http://img.example/c.jpg" }
    ∧ ({ audioUrl := "https://stored.example/audio"
         artwork := "http://img.example/c.jpg"
         originalAudioUrl := "http://audio.example/a.mp3"
         originalArtwork := "http://img.example/c.jpg" } : MediaResult).artwork
        = "http://img.example/c.jpg" := by
  refine ⟨?_, by decide, ?_⟩
  · exact (uploadTrackMedia_contract envAllFail "t1" "http://audio.example/a.mp3"
      "http://img.example/c.jpg").1.mpr (by decide)
  · exact ((uploadTrackMedia_contract envArtworkFails "t1" "http://audio.example/a.mp3"
      "http://img.example/c.jpg").2 _ (by decide)).2 (by decide)

/-! ## Deduplication checker (`batchCheckExisting` in the importer script) -/

/-- Insertion into a JS `Set` kept as an insertion-ordered list. -/
def setInsert (s : List String) (x : String) : List String :=
  if x ∈ s then s else s ++ [x]

/-- One `db.getAll(...refs)` round: add to `existing` the ids of the chunk
whose documents exist in the `tracks` collection (`store id = true`). -/
def lookupChunk (store : String → Bool) (existing : List String)
    (chunk : List String) : List String :=
  chunk.foldl (fun acc id => if store id then setInsert acc id else acc) existing

/-- `batchCheckExisting` from the importer: loop over 100-id chunks, one
batched lookup per chunk, returning the accumulated existing-id set and the
number of lookup calls issued. -/
def batchCheckExisting (store : String → Bool) (ids : List String) :
    List String × Nat :=
  let cs := chunksAux 99 ids
  (cs.foldl (lookupChunk store) [], cs.length)

/-- The orchestrator's dedup step:
`allTracks.filter(t => !existingIds.has(t.id))`. -/
def newTracksOf (store : String → Bool) (allTracks : List TrackRecord) :
    List TrackRecord :=
  let existingIds := (batchCheckExisting store (allTracks.map TrackRecord.id)).1
  allTracks.filter fun t => ¬ t.id ∈ existingIds

theorem mem_setInsert (s : List String) (x y : String) :
    y ∈ setInsert s x ↔ y ∈ s ∨ y = x := by
  unfold setInsert
  by_cases h : x ∈ s
  · simp only [h, if_pos]
    constructor
    · exact Or.inl
    · rintro (hy | rfl)
      · exact hy
      · exact h
  · simp [h]

theorem nodup_setInsert (s : List String) (x : String) (h : s.Nodup) :
    (setInsert s x).Nodup := by
  unfold setInsert
  by_cases hx : x ∈ s
  · simpa [hx]
  · simp [hx, List.nodup_append, h]

theorem mem_lookupChunk (store : String → Bool) (chunk : List String) :
    ∀ (existing : List String) (y : String),
      y ∈ lookupChunk store existing chunk ↔
        y ∈ existing ∨ (y ∈ chunk ∧ store y = true) := by
  induction chunk with
  | nil => intro existing y; simp [lookupChunk]
  | cons c cs ih =>
    intro existing y
    show y ∈ lookupChunk store (if store c then setInsert existing c else existing) cs ↔ _
    rw [ih]
    by_cases hc : store c
    · simp only [hc, if_pos, mem_setInsert, List.mem_cons]
      constructor
      · rintro ((hy | rfl) | ⟨hy, hs⟩)
        · exact Or.inl hy
        · exact Or.inr ⟨Or.inl rfl, hc⟩
        · exact Or.inr ⟨Or.inr hy, hs⟩
      · rintro (hy | ⟨(rfl | hy), hs⟩)
        · exact Or.inl (Or.inl hy)
        · exact Or.inl (Or.inr rfl)
        · exact Or.inr ⟨hy, hs⟩
    · simp only [hc, if_neg, List.mem_cons]
      constructor
      · rintro (hy | ⟨hy, hs⟩)
        · exact Or.inl hy
        · exact Or.inr ⟨Or.inr hy, hs⟩
      · rintro (hy | ⟨(rfl | hy), hs⟩)
        · exact Or.inl hy
        · exact absurd hs (by simpa using hc)
        · exact Or.inr ⟨hy, hs⟩

theorem nodup_lookupChunk (store : String → Bool) (chunk : List String) :
    ∀ existing : List String, existing.Nodup →
      (lookupChunk store existing chunk).Nodup := by
  induction chunk with
  | nil => intro existing h; simpa [lookupChunk]
  | cons c cs ih =>
    intro existing h
    show (lookupChunk store (if store c then setInsert existing c else existing) cs).Nodup
    apply ih
    by_cases hc : store c
    · simpa [hc] using nodup_setInsert existing c h
    · simpa [hc]

theorem lookupChunk_append (store : String → Bool) (a b existing : List String) :
    lookupChunk store existing (a ++ b) =
      lookupChunk store (lookupChunk store existing a) b :=
  List.foldl_append ..

theorem foldl_lookupChunk (store : String → Bool) (cs : List (List String)) :
    ∀ existing : List String,
      cs.foldl (lookupChunk store) existing = lookupChunk store existing cs.flatten := by
  induction cs with
  | nil => intro existing; simp [lookupChunk]
  | cons c cs ih =>
    intro existing
    rw [List.foldl_cons, ih, List.flatten_cons, lookupChunk_append]

/-- **C2.** The dedup existence check issues exactly `⌈N/100⌉` batched lookup
calls, and its result set carries exactly the input ids present in the
catalog store — no omissions and no extras relative to a linear scan, with no
duplicates — so the orchestrator's filter treats a track as new iff its id is
absent from the union of the chunk results, i.e. iff the store does not
contain it. -/
theorem batchCheckExisting_correct (store : String → Bool) (ids : List String)
    (allTracks : List TrackRecord) :
    (batchCheckExisting store ids).2 = (ids.length + 99) / 100
    ∧ (∀ y, y ∈ (batchCheckExisting store ids).1 ↔ y ∈ ids ∧ store y = true)
    ∧ (batchCheckExisting store ids).1.Nodup
    ∧ (∀ t, t ∈ newTracksOf store allTracks ↔ t ∈ allTracks ∧ store t.id = false) := by
  refine ⟨?_, ?_, ?_, ?_⟩
  · show (chunksAux 99 ids).length = _
    rw [chunksAux_length]
  · intro y
    show y ∈ (chunksAux 99 ids).foldl (lookupChunk store) [] ↔ _
    rw [foldl_lookupChunk, chunksAux_flatten, mem_lookupChunk]
    simp
  · show ((chunksAux 99 ids).foldl (lookupChunk store) []).Nodup
    rw [foldl_lookupChunk]
    exact nodup_lookupChunk store _ [] (by simp)
  · intro t
    unfold newTracksOf
    rw [List.mem_filter]
    have hmem : t.id ∈ (batchCheckExisting store (allTracks.map TrackRecord.id)).1 ↔
        t.id ∈ allTracks.map TrackRecord.id ∧ store t.id = true := by
      show t.id ∈ (chunksAux 99 _).foldl (lookupChunk store) [] ↔ _
      rw [foldl_lookupChunk, chunksAux_flatten, mem_lookupChunk]
      simp
    constructor
    · rintro ⟨ht, hdec⟩
      refine ⟨ht, ?_⟩
      rw [decide_eq_true_eq] at hdec
      rcases hstore : store t.id with _ | _
      · rfl
      · exact absurd (hmem.mpr ⟨List.mem_map_of_mem _ ht, hstore⟩) hdec
    · rintro ⟨ht, hstore⟩
      refine ⟨ht, ?_⟩
      rw [decide_eq_true_eq]
      intro hin
      rw [hmem] at hin
      rw [hin.2] at hstore
      exact absurd hstore (by simp)

/-! ## Batch writer (`batchWriteTracks` in the importer script) -/

/-- A document as the batch writer stores it: the track's fields spread into
the document plus the server-assigned `addedAt` write timestamp. -/
structure WrittenDoc where
  track : TrackRecord
  addedAt : Nat
deriving DecidableEq

/-- The `tracks` collection as a map from document id to stored document. -/
def StoreMap : Type := String → Option WrittenDoc

/-- `batch.set(ref, …)`: overwrite the document at `id`. -/
def setDoc (store : StoreMap) (id : String) (d : WrittenDoc) : StoreMap :=
  fun k => if k = id then some d else store k

/-- One atomic batch commit: set every track of the chunk, all stamped with
the commit's server timestamp `ts`. -/
def commitChunk (ts : Nat) (chunk : List TrackRecord) (store : StoreMap) : StoreMap :=
  chunk.foldl (fun s t => setDoc s t.id { track := t, addedAt := ts }) store

/-- Commit the chunks in order; `serverTs k` is the server-assigned timestamp
of the `k`-th commit (commits are numbered from `first`). -/
def writeChunksFrom (serverTs : Nat → Nat) (first : Nat) :
    List (List TrackRecord) → StoreMap → StoreMap
  | [], store => store
  | c :: cs, store => writeChunksFrom serverTs (first + 1) cs (commitChunk (serverTs first) c store)

/-- `batchWriteTracks` from the importer: split into chunks of
`BATCH_SIZE = 500`, one atomic commit per chunk. Returns the final store and
the number of commits issued. -/
def batchWriteTracks (serverTs : Nat → Nat) (tracks : List TrackRecord)
    (store : StoreMap) : StoreMap × Nat :=
  let cs := chunksAux 499 tracks
  (writeChunksFrom serverTs 0 cs store, cs.length)

theorem commitChunk_not_mem (ts : Nat) (chunk : List TrackRecord) (id : String) :
    ∀ store : StoreMap, (∀ u ∈ chunk, u.id ≠ id) →
      commitChunk ts chunk store id = store id := by
  induction chunk with
  | nil => intro store _; rfl
  | cons u us ih =>
    intro store h
    show commitChunk ts us (setDoc store u.id _) id = store id
    rw [ih _ fun v hv => h v (List.mem_cons_of_mem _ hv)]
    unfold setDoc
    have : id ≠ u.id := fun he => h u (List.mem_cons_self ..) he.symm
    simp [this]

theorem commitChunk_mem (ts : Nat) (chunk : List TrackRecord) (t : TrackRecord) :
    ∀ store : StoreMap, (chunk.map TrackRecord.id).Nodup → t ∈ chunk →
      commitChunk ts chunk store t.id = some { track := t, addedAt := ts } := by
  induction chunk with
  | nil => intro store _ ht; exact absurd ht (by simp)
  | cons u us ih =>
    intro store hnd ht
    show commitChunk ts us (setDoc store u.id _) t.id = _
    simp only [List.map_cons, List.nodup_cons] at hnd
    rcases List.mem_cons.mp ht with rfl | ht
    · rw [commitChunk_not_mem]
      · unfold setDoc; simp
      · intro v hv he
        exact hnd.1 (he ▸ List.mem_map_of_mem TrackRecord.id hv)
    · exact ih _ hnd.2 ht

theorem writeChunksFrom_not_mem (serverTs : Nat → Nat) (id : String) :
    ∀ (cs : List (List TrackRecord)) (first : Nat) (store : StoreMap),
      (∀ u ∈ cs.flatten, u.id ≠ id) →
      writeChunksFrom serverTs first cs store id = store id := by
  intro cs
  induction cs with
  | nil => intro first store _; rfl
  | cons c cs ih =>
    intro first store h
    show writeChunksFrom serverTs (first + 1) cs (commitChunk _ c store) id = store id
    rw [ih _ _ fun u hu => h u (by simp [List.mem_flatten]; exact Or.inr (by
      rcases List.mem_flatten.mp hu with ⟨l, hl, hul⟩; exact ⟨l, hl, hul⟩))]
    exact commitChunk_not_mem _ _ _ _ fun u hu => h u (by simp [List.mem_flatten]; exact Or.inl hu)

theorem writeChunksFrom_mem (serverTs : Nat → Nat) (t : TrackRecord) :
    ∀ (cs : List (List TrackRecord)) (first : Nat) (store : StoreMap),
      (cs.flatten.map TrackRecord.id).Nodup → t ∈ cs.flatten →
      ∃ j, j < cs.length ∧
        writeChunksFrom serverTs first cs store t.id =
          some { track := t, addedAt := serverTs (first + j) } := by
  intro cs
  induction cs with
  | nil => intro first store _ ht; exact absurd ht (by simp)
  | cons c cs ih =>
    intro first store hnd ht
    rw [List.flatten_cons] at ht
    have hnd' := hnd
    rw [List.flatten_cons, List.map_append, List.nodup_append] at hnd'
    rcases List.mem_append.mp ht with hc | hcs
    · refine ⟨0, by simp, ?_⟩
      show writeChunksFrom serverTs (first + 1) cs (commitChunk (serverTs first) c store) t.id = _
      rw [writeChunksFrom_not_mem]
      · rw [commitChunk_mem _ _ _ _ hnd'.1 hc]
        simp
      · intro u hu he
        exact hnd'.2.2 (List.mem_map_of_mem TrackRecord.id hc)
          (he ▸ List.mem_map_of_mem TrackRecord.id hu)
    · rcases ih (first + 1) (commitChunk (serverTs first) c store) hnd'.2.1 hcs with ⟨j, hj, hw⟩
      refine ⟨j + 1, by simpa using Nat.succ_lt_succ hj, ?_⟩
      show writeChunksFrom serverTs (first + 1) cs (commitChunk (serverTs first) c store) t.id = _
      have harith : first + 1 + j = first + (j + 1) := by omega
      rw [harith] at hw
      exact hw

/-- **C6.** The batch writer issues exactly `⌈N/500⌉` atomic commits, and —
on a deduplicated input (distinct ids, the Batch Writer's contract: it
"commits validated, deduplicated … records") — after all commits every input
track sits in the store under its id, with its fields intact and annotated
with the server timestamp of its commit. -/
theorem batchWriteTracks_correct (serverTs : Nat → Nat) (tracks : List TrackRecord)
    (store : StoreMap) (hnd : (tracks.map TrackRecord.id).Nodup) :
    (batchWriteTracks serverTs tracks store).2 = (tracks.length + 499) / 500
    ∧ ∀ t ∈ tracks, ∃ j, j < (batchWriteTracks serverTs tracks store).2 ∧
        (batchWriteTracks serverTs tracks store).1 t.id =
          some { track := t, addedAt := serverTs j } := by
  constructor
  · show (chunksAux 499 tracks).length = _
    rw [chunksAux_length]
  · intro t ht
    have hflat : (chunksAux 499 tracks).flatten = tracks := chunksAux_flatten 499 tracks
    have := writeChunksFrom_mem serverTs t (chunksAux 499 tracks) 0 store
      (by rw [hflat]; exact hnd) (by rw [hflat]; exact ht)
    rcases this with ⟨j, hj, hw⟩
    exact ⟨j, hj, by simpa using hw⟩

/-- A concrete track for witnesses. -/
def sampleTrack : TrackRecord :=
  sanitizeTrack { id := "jamendo-1", audioUrl := "https://example.org/a.mp3",
                  title := some "Song" }

/-- The empty `tracks` collection. -/
def emptyStore : StoreMap := fun _ => none

/-- Witness for C6 at a concrete input: writing the one-track list
`[sampleTrack]` issues one commit and stores the track under `"jamendo-1"`. -/
theorem batchWriteTracks_correct_witness :
    (batchWriteTracks (fun k => k + 7) [sampleTrack] emptyStore).2 = 1
    ∧ (batchWriteTracks (fun k => k + 7) [sampleTrack] emptyStore).1 "jamendo-1" =
        some { track := sampleTrack, addedAt := 7 } := by
  have h := batchWriteTracks_correct (fun k => k + 7) [sampleTrack] emptyStore (by decide)
  have h2 : (batchWriteTracks (fun k => k + 7) [sampleTrack] emptyStore).2 = 1 :=
    h.1.trans (by decide)
  refine ⟨h2, ?_⟩
  rcases h.2 sampleTrack (by decide) with ⟨j, hj, hw⟩
  rw [h2] at hj
  have hj0 : j = 0 := by omega
  subst hj0
  exact hw

/-! ## Orchestrator media phase (importer script, non-dry-run branch) -/

/-- The per-track body of the upload loop: on a successful transfer the
track's URL fields are rewritten in place and the originals preserved; on a
failed transfer the track is left untouched (and kept). -/
def applyMediaTransfer (env : MediaEnv) (track : TrackRecord) : TrackRecord :=
  match uploadTrackMedia env track.id track.audioUrl track.artwork with
  | some result =>
    { track with
      originalAudioUrl := some result.originalAudioUrl
      originalArtwork := some result.originalArtwork
      audioUrl := result.audioUrl
      artwork := result.artwork }
  | none => track

/-- The media phase over the whole `newTracks` list; its output is the list
handed to `batchWriteTracks`. -/
def orchestratorMediaPhase (env : MediaEnv) (newTracks : List TrackRecord) :
    List TrackRecord :=
  newTracks.map (applyMediaTransfer env)

/-- **C5.** A new track whose media transfer returns `none` is left with its
original `audioUrl` and `artwork` fields (and untouched `original*` fields),
and is still in the list handed to the batch writer — the track is written
with its original remote URLs rather than dropped. -/
theorem mediaFailureKeepsTrack (env : MediaEnv) (newTracks : List TrackRecord)
    (t : TrackRecord) (ht : t ∈ newTracks)
    (hfail : uploadTrackMedia env t.id t.audioUrl t.artwork = none) :
    applyMediaTransfer env t = t
    ∧ t ∈ orchestratorMediaPhase env newTracks
    ∧ (orchestratorMediaPhase env newTracks).length = newTracks.length := by
  have hid : applyMediaTransfer env t = t := by
    unfold applyMediaTransfer
    rw [hfail]
  refine ⟨hid, ?_, by simp [orchestratorMediaPhase]⟩
  unfold orchestratorMediaPhase
  exact hid ▸ List.mem_map_of_mem (applyMediaTransfer env) ht

/-- Witness for C5 at a concrete input: with every download failing, the
sample track survives the media phase unchanged. -/
theorem mediaFailureKeepsTrack_witness :
    applyMediaTransfer envAllFail sampleTrack = sampleTrack
    ∧ sampleTrack ∈ orchestratorMediaPhase envAllFail [sampleTrack]
    ∧ (orchestratorMediaPhase envAllFail [sampleTrack]).length = [sampleTrack].length :=
  mediaFailureKeepsTrack envAllFail [sampleTrack] sampleTrack (by decide) (by decide)

/-! ## Storage-migration script (the standalone migration `main`) -/

/-- The fields of a `tracks` document the migration handler reads
(`doc.data()`); `none` = field absent. -/
structure DocData where
  title : String
  audioUrl : Option String
  artwork : Option String
  originalAudioUrl : Option String
  originalArtwork : Option String
deriving DecidableEq

/-- The four fields `doc.ref.update({...})` writes after a successful
transfer. -/
structure UpdatePayload where
  audioUrl : String
  artwork : String
  originalAudioUrl : String
  originalArtwork : String
deriving DecidableEq

/-- Terminal state of one item's handler (the spec's
`SKIPPED | MIGRATED | FAILED`; `migratedDry` is the dry-run variant of
`MIGRATED`). -/
inductive ItemOutcome where
  | skipped
  | migratedDry
  | migratedLive (payload : UpdatePayload)
  | failed
deriving DecidableEq

/-- Side effects a handler performs besides mutating the stats counters. -/
inductive MigEffect where
  | transferCall (trackId audioUrl artworkUrl : String)
  | docUpdate (docId : String) (payload : UpdatePayload)
deriving DecidableEq

/-- The per-document handler body of the migration loop: skip when already
migrated (`data.originalAudioUrl` truthy) or when the audio URL is empty or
not a Jamendo URL; in dry-run mode count as migrated without transferring;
otherwise call `uploadTrackMedia` and either update the document or record a
failure. Returns the outcome plus the list of transfer/update effects
performed. -/
def migrateItem (env : MediaEnv) (isDryRun : Bool) (docId : String) (data : DocData) :
    ItemOutcome × List MigEffect :=
  if jsTruthyOpt data.originalAudioUrl then (.skipped, [])
  else
    let audioUrl := data.audioUrl.getD ""
    let artworkUrl := data.artwork.getD ""
    if audioUrl = "" ∨ jsIncludes audioUrl "jamendo" = false then (.skipped, [])
    else if isDryRun then (.migratedDry, [])
    else
      match uploadTrackMedia env docId audioUrl artworkUrl with
      | some result =>
        let payload : UpdatePayload :=
          { audioUrl := result.audioUrl
            artwork := result.artwork
            originalAudioUrl := result.originalAudioUrl
            originalArtwork := result.originalArtwork }
        (.migratedLive payload,
          [.transferCall docId audioUrl artworkUrl, .docUpdate docId payload])
      | none => (.failed, [.transferCall docId audioUrl artworkUrl])

/-- Applying a successful migration's `doc.ref.update` payload to the
document. -/
def applyUpdate (data : DocData) (payload : UpdatePayload) : DocData :=
  { data with
    audioUrl := some payload.audioUrl
    artwork := some payload.artwork
    originalAudioUrl := some payload.originalAudioUrl
    originalArtwork := some payload.originalArtwork }

/-- The migration run's counters (`MigrationStats`). -/
structure MigrationStats where
  total : Nat
  migrated : Nat
  skipped : Nat
  failed : Nat
  failedIds : List String
deriving DecidableEq

/-- Stats mutation of one handler: `stats.total++` then exactly one of
`migrated++`, `skipped++`, `failed++` (the latter also pushing the doc id
onto `failedIds`). -/
def stepStats (stats : MigrationStats) (docId : String) (o : ItemOutcome) :
    MigrationStats :=
  let s := { stats with total := stats.total + 1 }
  match o with
  | .skipped => { s with skipped := s.skipped + 1 }
  | .migratedDry => { s with migrated := s.migrated + 1 }
  | .migratedLive _ => { s with migrated := s.migrated + 1 }
  | .failed => { s with failed := s.failed + 1, failedIds := s.failedIds ++ [docId] }

/-- The whole run's mutable state: stats, the `processed` counter of the
paging loop, plus (model bookkeeping) the ids handled in order and the
effects performed. -/
structure RunState where
  stats : MigrationStats
  processed : Nat
  processedIds : List String
  effects : List MigEffect
deriving DecidableEq

/-- Handle one document of a concurrency chunk (the handlers of a chunk are
joined by `Promise.allSettled`; the embedding serialises them in list
order). -/
def handleDoc (env : MediaEnv) (isDryRun : Bool) (st : RunState)
    (doc : String × DocData) : RunState :=
  let (o, eff) := migrateItem env isDryRun doc.1 doc.2
  { st with
    stats := stepStats st.stats doc.1 o
    processedIds := st.processedIds ++ [doc.1]
    effects := st.effects ++ eff }

/-- The `while`/`for` loop guard `processed < limitCount`
(`none` = `LIMIT` unset = `Infinity`). -/
def limitOk (limit : Option Nat) (processed : Nat) : Bool :=
  match limit with
  | none => true
  | some n => processed < n

/-- Structural worker for the inner page loop
(`for (i = 0; i < docs.length && processed < limit; i += CONCURRENCY)`,
`CONCURRENCY = 3`): handle the chunk, then `processed += chunk.length`. -/
def processPageFuel (env : MediaEnv) (isDryRun : Bool) (limit : Option Nat) :
    Nat → List (String × DocData) → RunState → RunState
  | _, [], st => st
  | 0, _ :: _, st => st
  | fuel + 1, x :: xs, st =>
    if limitOk limit st.processed then
      let chunk := (x :: xs).take 3
      let st1 := chunk.foldl (handleDoc env isDryRun) st
      let st2 := { st1 with processed := st1.processed + chunk.length }
      processPageFuel env isDryRun limit fuel ((x :: xs).drop 3) st2
    else st

/-- The inner page loop. -/
def processPage (env : MediaEnv) (isDryRun : Bool) (limit : Option Nat)
    (docs : List (String × DocData)) (st : RunState) : RunState :=
  processPageFuel env isDryRun limit docs.length docs st

/-- Structural worker for the outer paging loop
(`while (hasMore && processed < limit)`, `PAGE_SIZE = 100`, next query
`startAfter` the page's last document). -/
def migrationLoopFuel (env : MediaEnv) (isDryRun : Bool) (limit : Option Nat) :
    Nat → List (String × DocData) → RunState → RunState
  | _, [], st => st
  | 0, _ :: _, st => st
  | fuel + 1, x :: xs, st =>
    if limitOk limit st.processed then
      let page := (x :: xs).take 100
      let st1 := processPage env isDryRun limit page st
      migrationLoopFuel env isDryRun limit fuel ((x :: xs).drop 100) st1
    else st

/-- A full storage-migration pass over the catalog (`docs` is the `tracks`
collection in `__name__` order, after any `START_AFTER` resume point). -/
def migrationRun (env : MediaEnv) (isDryRun : Bool) (limit : Option Nat)
    (docs : List (String × DocData)) : RunState :=
  migrationLoopFuel env isDryRun limit docs.length docs
    { stats := { total := 0, migrated := 0, skipped := 0, failed := 0, failedIds := [] }
      processed := 0
      processedIds := []
      effects := [] }

/-- **C3.** A record whose `originalAudioUrl` is present (truthy) is skipped
by the migration handler — counted as skipped, with no download, no upload
and no document update — and a record migrated by a first (live) pass has a
truthy `originalAudioUrl` afterwards, so a second pass over the updated
document is a no-op skip. -/
theorem migration_idempotent (env env2 : MediaEnv) (isDryRun isDryRun2 : Bool)
    (docId : String) (data : DocData) :
    (jsTruthyOpt data.originalAudioUrl = true →
      migrateItem env isDryRun docId data = (.skipped, []))
    ∧ (∀ payload eff,
        migrateItem env isDryRun docId data = (.migratedLive payload, eff) →
        migrateItem env2 isDryRun2 docId (applyUpdate data payload) = (.skipped, [])) := by
  constructor
  · intro h
    unfold migrateItem
    rw [h]
    simp
  · intro payload eff h
    have hpay : payload.originalAudioUrl = data.audioUrl.getD ""
        ∧ data.audioUrl.getD "" ≠ "" := by
      unfold migrateItem at h
      by_cases h1 : jsTruthyOpt data.originalAudioUrl
      · rw [if_pos h1] at h; exact absurd h (by simp)
      · rw [if_neg h1] at h
        by_cases h2 : data.audioUrl.getD "" = "" ∨
            jsIncludes (data.audioUrl.getD "") "jamendo" = false
        · rw [if_pos h2] at h; exact absurd h (by simp)
        · rw [if_neg h2] at h
          have hne : data.audioUrl.getD "" ≠ "" := fun he => h2 (Or.inl he)
          by_cases h3 : isDryRun
          · rw [if_pos h3] at h; exact absurd h (by simp)
          · rw [if_neg h3] at h
            cases hup : uploadTrackMedia env docId (data.audioUrl.getD "")
                (data.artwork.getD "") with
            | none => rw [hup] at h; exact absurd h (by simp)
            | some r =>
              rw [hup] at h
              simp only [Prod.mk.injEq, ItemOutcome.migratedLive.injEq] at h
              have hfield : payload.originalAudioUrl = r.originalAudioUrl := by
                rw [← h.1]
              rw [hfield]
              exact ⟨(uploadTrackMedia_originals env docId _ _ r hup).1, hne⟩
    unfold migrateItem
    have htruthy : jsTruthyOpt (applyUpdate data payload).originalAudioUrl = true := by
      show jsTruthyOpt (some payload.originalAudioUrl) = true
      unfold jsTruthyOpt
      rw [hpay.1]
      simpa using hpay.2
    rw [htruthy]
    simp

/-- An environment in which every download and upload succeeds. -/
def envUploadsOk : MediaEnv where
  download := fun _ _ => some { buffer := [1], contentType := "audio/mpeg" }
  upload := fun _ _ _ => some "https://stored.example/audio"

/-- An already-migrated document. -/
def dataMigrated : DocData :=
  { title := "Song", audioUrl := some "https://stored.example/audio",
    artwork := none, originalAudioUrl := some "https://jamendo.example/t.mp3",
    originalArtwork := some "" }

/-- An unmigrated Jamendo document. -/
def dataJamendo : DocData :=
  { title := "Song", audioUrl := some "https://jamendo.example/t.mp3",
    artwork := none, originalAudioUrl := none, originalArtwork := none }

/-- The payload a live pass over `dataJamendo` under `envUploadsOk` writes. -/
def payloadJamendo : UpdatePayload :=
  { audioUrl := "https://stored.example/audio", artwork := "",
    originalAudioUrl := "https://jamendo.example/t.mp3", originalArtwork := "" }

/-- Witness for C3 at concrete inputs: an already-migrated document is
skipped with no effects, and re-running on the document produced by a
successful live migration of `dataJamendo` is likewise a no-op skip. -/
theorem migration_idempotent_witness :
    migrateItem envAllFail true "d1" dataMigrated = (.skipped, [])
    ∧ migrateItem envAllFail true "d1" (applyUpdate dataJamendo payloadJamendo)
        = (.skipped, []) := by
  constructor
  · exact (migration_idempotent envAllFail envAllFail true true "d1" dataMigrated).1
      (by decide)
  · exact (migration_idempotent envUploadsOk envAllFail false true "d1" dataJamendo).2
      payloadJamendo
      [.transferCall "d1" "https://jamendo.example/t.mp3" "",
       .docUpdate "d1" payloadJamendo]
      (by decide)

/-- The stats invariant: every scanned item ends in exactly one terminal
bucket, and `failedIds` records exactly the failures. -/
def statsInv (s : MigrationStats) : Prop :=
  s.total = s.migrated + s.skipped + s.failed ∧ s.failedIds.length = s.failed

theorem statsInv_step (stats : MigrationStats) (docId : String) (o : ItemOutcome)
    (h : statsInv stats) : statsInv (stepStats stats docId o) := by
  obtain ⟨h1, h2⟩ := h
  cases o <;> simp [stepStats, statsInv] <;> omega

theorem statsInv_handleDoc (env : MediaEnv) (isDryRun : Bool) (st : RunState)
    (doc : String × DocData) (h : statsInv st.stats) :
    statsInv (handleDoc env isDryRun st doc).stats := by
  unfold handleDoc
  exact statsInv_step st.stats doc.1 _ h

theorem statsInv_processPageFuel (env : MediaEnv) (isDryRun : Bool)
    (limit : Option Nat) :
    ∀ (fuel : Nat) (docs : List (String × DocData)) (st : RunState),
      statsInv st.stats →
      statsInv (processPageFuel env isDryRun limit fuel docs st).stats := by
  intro fuel
  induction fuel with
  | zero =>
    intro docs st h
    cases docs <;> simpa [processPageFuel]
  | succ fuel ih =>
    intro docs st h
    cases docs with
    | nil => simpa [processPageFuel]
    | cons x xs =>
      rw [processPageFuel]
      by_cases hl : limitOk limit st.processed
      · rw [if_pos hl]
        apply ih
        show statsInv (((x :: xs).take 3).foldl (handleDoc env isDryRun) st).stats
        exact foldl_preserve (fun s => statsInv s.stats)
          (fun s d hs => statsInv_handleDoc env isDryRun s d hs) _ st h
      · rw [if_neg hl]; exact h

theorem statsInv_migrationLoopFuel (env : MediaEnv) (isDryRun : Bool)
    (limit : Option Nat) :
    ∀ (fuel : Nat) (docs : List (String × DocData)) (st : RunState),
      statsInv st.stats →
      statsInv (migrationLoopFuel env isDryRun limit fuel docs st).stats := by
  intro fuel
  induction fuel with
  | zero =>
    intro docs st h
    cases docs <;> simpa [migrationLoopFuel]
  | succ fuel ih =>
    intro docs st h
    cases docs with
    | nil => simpa [migrationLoopFuel]
    | cons x xs =>
      rw [migrationLoopFuel]
      by_cases hl : limitOk limit st.processed
      · rw [if_pos hl]
        exact ih _ _ (statsInv_processPageFuel env isDryRun limit _ _ st h)
      · rw [if_neg hl]; exact h

/-- **C10.** One handler's stats mutation keeps the run statistics invariant
`total = migrated + skipped + failed` with `failedIds` holding exactly
`failed` entries (each scanned item lands in exactly one terminal bucket,
and `total` grows by one per item), so the invariant holds after every
item's handler throughout a migration pass — in particular over any whole
run. -/
theorem migration_stats_invariant :
    (∀ (stats : MigrationStats) (docId : String) (o : ItemOutcome),
      statsInv stats →
      statsInv (stepStats stats docId o)
      ∧ (stepStats stats docId o).total = stats.total + 1)
    ∧ (∀ (env : MediaEnv) (isDryRun : Bool) (limit : Option Nat)
        (docs : List (String × DocData)),
        statsInv (migrationRun env isDryRun limit docs).stats) := by
  constructor
  · intro stats docId o h
    refine ⟨statsInv_step stats docId o h, ?_⟩
    cases o <;> simp [stepStats]
  · intro env isDryRun limit docs
    exact statsInv_migrationLoopFuel env isDryRun limit _ _ _ ⟨rfl, rfl⟩

/-- The all-zero initial stats of a run. -/
def zeroStats : MigrationStats :=
  { total := 0, migrated := 0, skipped := 0, failed := 0, failedIds := [] }

/-- Witness for C10 at a concrete input: the invariant holds after a
one-item step and over a small concrete run. -/
theorem migration_stats_invariant_witness :
    (statsInv (stepStats zeroStats "d1" .failed)
      ∧ (stepStats zeroStats "d1" .failed).total = 0 + 1)
    ∧ statsInv (migrationRun envAllFail false (some 40)
        [("d1", dataJamendo), ("d2", dataMigrated)]).stats :=
  ⟨migration_stats_invariant.1 zeroStats "d1" .failed ⟨rfl, rfl⟩,
   migration_stats_invariant.2 envAllFail false (some 40) _⟩

theorem foldl_handleDoc_processed (env : MediaEnv) (isDryRun : Bool) :
    ∀ (chunk : List (String × DocData)) (st : RunState),
      (chunk.foldl (handleDoc env isDryRun) st).processed = st.processed := by
  intro chunk
  induction chunk with
  | nil => intro st; rfl
  | cons d ds ih => intro st; rw [List.foldl_cons, ih]; rfl

theorem foldl_handleDoc_ids_length (env : MediaEnv) (isDryRun : Bool) :
    ∀ (chunk : List (String × DocData)) (st : RunState),
      (chunk.foldl (handleDoc env isDryRun) st).processedIds.length
        = st.processedIds.length + chunk.length := by
  intro chunk
  induction chunk with
  | nil => intro st; simp
  | cons d ds ih =>
    intro st
    rw [List.foldl_cons, ih]
    show (st.processedIds ++ [d.1]).length + ds.length = _
    simp [List.length_append]
    omega

/-- The `processed` counter and the number of handled items agree, and with
`LIMIT = n` the page loop never takes `processed` beyond `n + 2` (the guard
is checked only at 3-item chunk boundaries). -/
theorem processPageFuel_bound (env : MediaEnv) (isDryRun : Bool) (n : Nat) :
    ∀ (fuel : Nat) (docs : List (String × DocData)) (st : RunState),
      st.processedIds.length = st.processed → st.processed ≤ n + 2 →
      (processPageFuel env isDryRun (some n) fuel docs st).processedIds.length
        = (processPageFuel env isDryRun (some n) fuel docs st).processed
      ∧ (processPageFuel env isDryRun (some n) fuel docs st).processed ≤ n + 2 := by
  intro fuel
  induction fuel with
  | zero =>
    intro docs st h1 h2
    cases docs <;> simpa [processPageFuel] using ⟨h1, h2⟩
  | succ fuel ih =>
    intro docs st h1 h2
    cases docs with
    | nil => simpa [processPageFuel] using ⟨h1, h2⟩
    | cons x xs =>
      rw [processPageFuel]
      by_cases hl : limitOk (some n) st.processed
      · rw [if_pos hl]
        apply ih
        · show (((x :: xs).take 3).foldl (handleDoc env isDryRun) st).processedIds.length
            = ((((x :: xs).take 3).foldl (handleDoc env isDryRun) st)).processed
              + ((x :: xs).take 3).length
          rw [foldl_handleDoc_ids_length, foldl_handleDoc_processed, h1]
        · show (((x :: xs).take 3).foldl (handleDoc env isDryRun) st).processed
            + ((x :: xs).take 3).length ≤ n + 2
          rw [foldl_handleDoc_processed]
          have hlen : ((x :: xs).take 3).length ≤ 3 := by
            rw [List.length_take]; omega
          have hlt : st.processed < n := by
            simpa [limitOk] using hl
          omega
      · rw [if_neg hl]; exact ⟨h1, h2⟩

theorem migrationLoopFuel_bound (env : MediaEnv) (isDryRun : Bool) (n : Nat) :
    ∀ (fuel : Nat) (docs : List (String × DocData)) (st : RunState),
      st.processedIds.length = st.processed → st.processed ≤ n + 2 →
      (migrationLoopFuel env isDryRun (some n) fuel docs st).processedIds.length
        = (migrationLoopFuel env isDryRun (some n) fuel docs st).processed
      ∧ (migrationLoopFuel env isDryRun (some n) fuel docs st).processed ≤ n + 2 := by
  intro fuel
  induction fuel with
  | zero =>
    intro docs st h1 h2
    cases docs <;> simpa [migrationLoopFuel] using ⟨h1, h2⟩
  | succ fuel ih =>
    intro docs st h1 h2
    cases docs with
    | nil => simpa [migrationLoopFuel] using ⟨h1, h2⟩
    | cons x xs =>
      rw [migrationLoopFuel]
      by_cases hl : limitOk (some n) st.processed
      · rw [if_pos hl]
        have hpage := processPageFuel_bound env isDryRun n ((x :: xs).take 100).length
          ((x :: xs).take 100) st h1 h2
        exact ih _ _ hpage.1 hpage.2
      · rw [if_neg hl]; exact ⟨h1, h2⟩

/-- A 100-item catalog of unmigrated Jamendo documents, ids `"0"`–`"99"` in
collection order. -/
def testDocs100 : List (String × DocData) :=
  (List.range 100).map fun k => (toString k, dataJamendo)

/-- **C4 counterexample.** Over the concrete 100-item collection
`testDocs100`, a (dry-run) migration pass with `LIMIT=40` processes 42 items
— the first 42 document ids, not the first 40 — so the claim "at most n
items are processed; with LIMIT=40 exactly items 1–40" is false on the code:
the limit guard sits at 3-item chunk boundaries and overshoots. -/
theorem migration_limit_counterexample :
    (migrationRun envAllFail true (some 40) testDocs100).processedIds.length = 42
    ∧ ¬ ((migrationRun envAllFail true (some 40) testDocs100).processedIds.length ≤ 40) := by
  constructor
  · decide
  · decide

/-- **C4 (amended).** With `LIMIT = n` a migration pass processes at most
`n + 2` items (the guard `processed < limit` is checked only before each
3-item concurrency chunk, so it can overshoot by up to `CONCURRENCY - 1 = 2`);
in particular, over the 100-item collection a first run with `LIMIT=40`
processes exactly items 1–42, in order. -/
theorem migration_limit_soft_cap :
    (∀ (env : MediaEnv) (isDryRun : Bool) (n : Nat) (docs : List (String × DocData)),
      (migrationRun env isDryRun (some n) docs).processedIds.length ≤ n + 2)
    ∧ (migrationRun envAllFail true (some 40) testDocs100).processedIds
        = (testDocs100.map Prod.fst).take 42 := by
  constructor
  · intro env isDryRun n docs
    have h := migrationLoopFuel_bound env isDryRun n docs.length docs
      { stats := zeroStats, processed := 0, processedIds := [], effects := [] }
      rfl (Nat.zero_le (n + 2))
    calc (migrationRun env isDryRun (some n) docs).processedIds.length
        = (migrationRun env isDryRun (some n) docs).processed := h.1
      _ ≤ n + 2 := h.2
  · decide

/-! ## Jamendo source adapter (`scripts/import-music/sources/jamendo.ts`) -/

/-- One entry of a Jamendo API page (`JamendoTrack`); absent/empty string
fields are `""` (JS falsy), `genre0` is `musicinfo?.tags?.genres?.[0]`
(`none` when any link of the optional chain is missing or the list is
empty). -/
structure JamendoTrack where
  id : String
  name : String
  duration : Int
  artist_id : String
  artist_name : String
  album_id : String
  album_name : String
  album_image : String
  audio : String
  audiodownload : String
  image : String
  license_ccurl : String
  genre0 : Option String
deriving DecidableEq

/-- Outcome of one page request (`fetch` + `response.json()`):
`throw` = network/parse exception, `notOk` = non-2xx response,
`ok code results` = parsed body with `headers.code` and `results`. -/
inductive PageOutcome where
  | throw (msg : String)
  | notOk (status : Nat)
  | ok (code : Int) (results : List JamendoTrack)

/-- The per-item mapping of the page loop body: items with neither `audio`
nor `audiodownload` are silently skipped; the rest are sanitized. -/
def mapJamendoTrack (t : JamendoTrack) : Option TrackRecord :=
  if t.audio = "" ∧ t.audiodownload = "" then none
  else
    some (sanitizeTrack
      { id := "jamendo-" ++ t.id
        audioUrl := jsOr t.audio t.audiodownload
        title := some t.name
        artist := some t.artist_name
        artistId := some ("jamendo-artist-" ++ t.artist_id)
        album := some (jsOr t.album_name "Singles")
        albumId := some (if t.album_id ≠ "" then "jamendo-album-" ++ t.album_id else "")
        duration := some t.duration
        artwork := some (jsOr t.album_image (jsOr t.image ""))
        genre := some (jsOrOpt t.genre0 "Other")
        license := some (jsOr t.license_ccurl "Creative Commons") })

/-- The page loop of `fetchJamendo` (`MAX_PAGES = 3`, `PAGE_SIZE = 200`):
a thrown page error is recorded and the loop continues; a non-2xx response
or API error code records an error and breaks; a short page breaks after
collecting. Also counts the HTTP requests issued. -/
def jamendoGo (pages : Nat → PageOutcome) :
    Nat → Nat → List TrackRecord × List String × Nat →
      List TrackRecord × List String × Nat
  | 0, _, acc => acc
  | remaining + 1, page, (tracks, errors, requests) =>
    match pages page with
    | .throw msg =>
      jamendoGo pages remaining (page + 1)
        (tracks, errors ++ ["Page " ++ toString (page + 1) ++ " error: " ++ msg],
         requests + 1)
    | .notOk status =>
      (tracks, errors ++ ["HTTP " ++ toString status ++ " on page " ++ toString (page + 1)],
       requests + 1)
    | .ok code results =>
      if code ≠ 0 then
        (tracks,
         errors ++ ["API error code " ++ toString code ++ " on page " ++ toString (page + 1)],
         requests + 1)
      else
        let tracks1 := tracks ++ results.filterMap mapJamendoTrack
        if results.length < 200 then (tracks1, errors, requests + 1)
        else jamendoGo pages remaining (page + 1) (tracks1, errors, requests + 1)

/-- `fetchJamendo`: a falsy `JAMENDO_CLIENT_ID` (unset or empty) short-circuits
with a single error and no request; otherwise the page loop runs. Returns the
`SourceResult` and the number of HTTP requests issued. -/
def fetchJamendo (clientId : Option String) (pages : Nat → PageOutcome) :
    SourceResult × Nat :=
  if jsTruthyOpt clientId = false then
    ({ sourceName := "jamendo", tracks := [], errors := ["JAMENDO_CLIENT_ID not set"] }, 0)
  else
    let (tracks, errors, requests) := jamendoGo pages 3 0 ([], [], 0)
    ({ sourceName := "jamendo", tracks := tracks, errors := errors }, requests)

/-- **C8.** When `JAMENDO_CLIENT_ID` is not set (or empty), `fetchJamendo`
returns — without issuing any HTTP request and without throwing — a
`SourceResult` with an empty track list and exactly the one error
`"JAMENDO_CLIENT_ID not set"`. -/
theorem fetchJamendo_no_credential (clientId : Option String)
    (pages : Nat → PageOutcome) (h : jsTruthyOpt clientId = false) :
    fetchJamendo clientId pages =
      ({ sourceName := "jamendo", tracks := [],
         errors := ["JAMENDO_CLIENT_ID not set"] }, 0)
    ∧ (fetchJamendo clientId pages).1.errors.length = 1
    ∧ (fetchJamendo clientId pages).2 = 0 := by
  unfold fetchJamendo
  rw [h]
  exact ⟨rfl, rfl, rfl⟩

/-- Witness for C8 at a concrete input: the environment variable absent
(`none`), with a page oracle that would throw if it were ever consulted. -/
theorem fetchJamendo_no_credential_witness :
    fetchJamendo none (fun _ => .throw "network unavailable") =
      ({ sourceName := "jamendo", tracks := [],
         errors := ["JAMENDO_CLIENT_ID not set"] }, 0)
    ∧ (fetchJamendo none (fun _ => .throw "network unavailable")).1.errors.length = 1
    ∧ (fetchJamendo none (fun _ => .throw "network unavailable")).2 = 0 :=
  fetchJamendo_no_credential none (fun _ => .throw "network unavailable") rfl

/-! ## Internet Archive source adapter
(`scripts/import-music/sources/internetArchive.ts`) -/

/-- A `subject` field: `string | string[]`. -/
inductive SubjectVal where
  | one (s : String)
  | many (tags : List String)
deriving DecidableEq

/-- One search hit (`IASearchDoc`). -/
structure IASearchDoc where
  identifier : String
  title : String
  creator : Option String
  subject : Option SubjectVal
  licenseurl : Option String
deriving DecidableEq

/-- One file of an item's metadata (`IAFile`); `format` and `length` may be
absent. -/
structure IAFile where
  name : String
  format : Option String
  length : Option String
  source : String
deriving DecidableEq

/-- The `metadata` object of an item (`IAMetadata.metadata`). -/
structure IAMetaInner where
  identifier : String
  title : String
  creator : Option String
  subject : Option SubjectVal
  licenseurl : Option String
deriving DecidableEq

/-- An item's metadata response (`IAMetadata`). -/
structure IAMetadata where
  metadata : IAMetaInner
  files : List IAFile
deriving DecidableEq

/-- Outcome of one archive.org HTTP call: `throw` = network/parse exception,
`notOk` = non-2xx, `ok` = parsed body. -/
inductive IAOutcome (α : Type) where
  | throw (msg : String)
  | notOk (status : Nat)
  | ok (val : α)

/-- The adapter's per-source cursor (`IAState`). -/
structure IAState where
  queryIndex : Nat
  sortIndex : Nat
  pageOffset : Nat
  lastRun : String
deriving DecidableEq

/-- The network environment of the adapter: the search call (keyed by the
query index, sort index and page number the loop computes), the per-item
metadata call, plus abstract models of two JS primitives the adapter applies
(`Math.round(parseFloat(·))` on a file's `length` string, and
`encodeURIComponent` on a file name). -/
structure IAEnv where
  search : Nat → Nat → Nat → IAOutcome (List IASearchDoc)
  metadata : String → IAOutcome IAMetadata
  parseDuration : String → Int
  encodeURIComponent : String → String

/-- `SEARCH_QUERIES` (10 rotation queries). -/
def SEARCH_QUERIES : List String :=
  ["mediatype:audio AND licenseurl:*creativecommons* AND format:mp3",
   "mediatype:audio AND collection:opensource_audio AND format:mp3",
   "mediatype:audio AND licenseurl:*publicdomain* AND format:mp3",
   "mediatype:audio AND collection:audio_music AND format:mp3",
   "mediatype:audio AND licenseurl:*creativecommons* AND subject:rock AND format:mp3",
   "mediatype:audio AND licenseurl:*creativecommons* AND subject:electronic AND format:mp3",
   "mediatype:audio AND licenseurl:*creativecommons* AND subject:jazz AND format:mp3",
   "mediatype:audio AND licenseurl:*creativecommons* AND subject:classical AND format:mp3",
   "mediatype:audio AND licenseurl:*creativecommons* AND subject:folk AND format:mp3",
   "mediatype:audio AND licenseurl:*creativecommons* AND subject:ambient AND format:mp3"]

/-- `SORT_OPTIONS` (4 sort rotations). -/
def SORT_OPTIONS : List String :=
  ["addeddate desc", "downloads desc", "date desc", "createdate desc"]

/-- `AUDIO_EXTENSIONS`. -/
def AUDIO_EXTENSIONS : List String := [".mp3", ".ogg", ".flac"]

/-- The JS regex `\.[^/.]+$` remover: strip a final `.ext` whose `ext` is
non-empty and contains neither `.` nor `/`. -/
def stripExt (s : String) : String :=
  let rev := s.data.reverse
  let ext := rev.takeWhile fun c => c ≠ '.' ∧ c ≠ '/'
  if ext ≠ [] ∧ (rev.drop ext.length).head? = some '.' then
    ⟨(rev.drop (ext.length + 1)).reverse⟩
  else s

/-- Structural worker collapsing each whitespace run to one space
(the JS `replace(/\s+/g, ' ')`). -/
def squashWsFuel : Nat → List Char → List Char
  | _, [] => []
  | 0, _ :: _ => []
  | fuel + 1, c :: cs =>
    if c.isWhitespace then ' ' :: squashWsFuel fuel (cs.dropWhile Char.isWhitespace)
    else c :: squashWsFuel fuel cs

/-- `cleanTitle` from the adapter: strip the extension, turn `_`/`-` into
spaces, collapse whitespace runs, trim. -/
def cleanTitle (filename : String) : String :=
  let noExt := stripExt filename
  let spaced := noExt.data.map fun c => if c = '_' ∨ c = '-' then ' ' else c
  String.trim ⟨squashWsFuel spaced.length spaced⟩

/-- `sanitizeFilename` from the adapter: strip the extension, replace every
character outside `[a-zA-Z0-9-]` by `-`, keep at most 60 characters. -/
def sanitizeFilename (name : String) : String :=
  let noExt := stripExt name
  let safe := noExt.data.map fun c =>
    if ('a' ≤ c ∧ c ≤ 'z') ∨ ('A' ≤ c ∧ c ≤ 'Z') ∨ ('0' ≤ c ∧ c ≤ '9') ∨ c = '-'
    then c else '-'
  jsSubstrTo ⟨safe⟩ 60

/-- The adapter's keyword → genre table, in insertion order. -/
def genreMap : List (String × String) :=
  [("rock", "Rock"), ("electronic", "Electronic"), ("jazz", "Jazz"),
   ("classical", "Classical"), ("folk", "Folk"), ("ambient", "Ambient"),
   ("pop", "Pop"), ("indie", "Indie"), ("experimental", "Experimental"),
   ("world", "World"), ("piano", "Piano"), ("metal", "Metal"),
   ("hiphop", "Hip Hop"), ("hip-hop", "Hip Hop"), ("blues", "Blues"),
   ("country", "Country"), ("reggae", "Reggae"), ("soul", "Soul")]

/-- `extractGenre` from the adapter: first keyword of the table contained in
some tag (string subjects split on `;` and trimmed), else `"Other"`. -/
def extractGenre (subject : Option SubjectVal) : String :=
  match subject with
  | none => "Other"
  | some sv =>
    let tags := match sv with
      | .many l => l
      | .one s => (s.splitOn ";").map String.trim
    match tags.findSome? (fun tag =>
        (genreMap.find? fun kv => jsIncludes (jsToLower tag) kv.1).map Prod.snd) with
    | some v => v
    | none => "Other"

/-- First filter of `audioFiles`: the file name ends with an audio
extension. -/
def isAudioFile (f : IAFile) : Bool :=
  AUDIO_EXTENSIONS.any fun ext => jsEndsWith (jsToLower f.name) ext

/-- Second filter of `audioFiles`: original source, or an mp3 format. -/
def isUsableFile (f : IAFile) : Bool :=
  f.source = "original" ||
    (match f.format with
     | some fmt => jsIncludes (jsToLower fmt) "mp3"
     | none => false)

/-- The (length-capped) id of one file of one item:
`` `ia-${doc.identifier}-${sanitizeFilename(file.name)}` `` truncated to 128
characters when longer. -/
def safeIdOf (doc : IASearchDoc) (f : IAFile) : String :=
  let trackId := "ia-" ++ doc.identifier ++ "-" ++ sanitizeFilename f.name
  if trackId.length > 128 then jsSubstrTo trackId 128 else trackId

/-- The sanitized record the adapter pushes for one file of one item. -/
def fileTrack (env : IAEnv) (doc : IASearchDoc)
    (artist license genre artworkUrl : String) (f : IAFile) : TrackRecord :=
  sanitizeTrack
    { id := safeIdOf doc f
      audioUrl := "https://archive.org/download/" ++ doc.identifier ++ "/"
        ++ env.encodeURIComponent f.name
      title := some (cleanTitle f.name)
      artist := some artist
      album := some (jsOr doc.title "Internet Archive")
      duration := some (match f.length with
        | some s => if s = "" then 0 else env.parseDuration s
        | none => 0)
      artwork := some artworkUrl
      genre := some genre
      license := some license }

/-- The per-file body of the adapter's innermost loop: consult the per-run
`seen` set (`acc.1`), and push the sanitized record for an unseen id. -/
def processFile (env : IAEnv) (doc : IASearchDoc)
    (artist license genre artworkUrl : String)
    (acc : List String × List TrackRecord) (f : IAFile) :
    List String × List TrackRecord :=
  if safeIdOf doc f ∈ acc.1 then acc
  else (acc.1 ++ [safeIdOf doc f],
        acc.2 ++ [fileTrack env doc artist license genre artworkUrl f])

/-- The per-item body of the docs loop: fetch metadata (errors recorded,
item skipped), filter the audio files (zero usable files = silent skip),
then run the file loop. The accumulator is `(seen, tracks, errors)`. -/
def processDoc (env : IAEnv)
    (acc : List String × List TrackRecord × List String) (doc : IASearchDoc) :
    List String × List TrackRecord × List String :=
  match env.metadata doc.identifier with
  | .throw msg =>
    (acc.1, acc.2.1, acc.2.2 ++ ["Item " ++ doc.identifier ++ ": " ++ msg])
  | .notOk status =>
    (acc.1, acc.2.1,
     acc.2.2 ++ ["Metadata HTTP " ++ toString status ++ " for " ++ doc.identifier])
  | .ok meta =>
    let audioFiles := (meta.files.filter isAudioFile).filter isUsableFile
    if audioFiles.isEmpty then (acc.1, acc.2.1, acc.2.2)
    else
      let artworkUrl := "https://archive.org/services/img/" ++ doc.identifier
      let artist := jsOrOpt meta.metadata.creator (jsOrOpt doc.creator "Unknown Artist")
      let license :=
        jsOrOpt meta.metadata.licenseurl (jsOrOpt doc.licenseurl "Creative Commons")
      let genre := extractGenre doc.subject
      let res := audioFiles.foldl
        (processFile env doc artist license genre artworkUrl) (acc.1, acc.2.1)
      (res.1, res.2, acc.2.2)

/-- The per-query body of the rotation loop (`queriesToRun = 3`,
`ROWS_PER_QUERY = 100`, `MAX_ITEMS_PER_QUERY = 50`). -/
def processQuery (env : IAEnv) (state : IAState)
    (acc : List String × List TrackRecord × List String) (q : Nat) :
    List String × List TrackRecord × List String :=
  match env.search ((state.queryIndex + q) % SEARCH_QUERIES.length)
      ((state.sortIndex + q) % SORT_OPTIONS.length)
      ((if q = 0 then state.pageOffset else 0) / 100 + 1) with
  | .throw msg =>
    (acc.1, acc.2.1, acc.2.2 ++ ["Query " ++ toString (q + 1) ++ " error: " ++ msg])
  | .notOk status =>
    (acc.1, acc.2.1,
     acc.2.2 ++ ["Search HTTP " ++ toString status ++ " for query " ++ toString (q + 1)])
  | .ok docs => (docs.take 50).foldl (processDoc env) acc

/-- `fetchInternetArchive`: run the three rotation queries over a fresh
per-run `seen` set (`state` is the cursor loaded at run start, or the
initial cursor on load failure). -/
def fetchInternetArchive (env : IAEnv) (state : IAState) : SourceResult :=
  let res := (List.range 3).foldl (processQuery env state) ([], [], [])
  { sourceName := "internet-archive", tracks := res.2.1, errors := res.2.2 }

/-- The cursor the adapter saves at the end of a run. -/
def nextIAState (state : IAState) (now : String) : IAState :=
  { queryIndex := (state.queryIndex + 3) % SEARCH_QUERIES.length
    sortIndex := (state.sortIndex + 1) % SORT_OPTIONS.length
    pageOffset := state.pageOffset + 100
    lastRun := now }

/-- The per-run id invariant: every collected id is in the `seen` set and at
most 128 characters long, and the collected ids are pairwise distinct. -/
def idInv (seen : List String) (tracks : List TrackRecord) : Prop :=
  (∀ t ∈ tracks, t.id ∈ seen ∧ t.id.length ≤ 128)
  ∧ (tracks.map TrackRecord.id).Nodup

theorem safeIdOf_length (doc : IASearchDoc) (f : IAFile) :
    (safeIdOf doc f).length ≤ 128 := by
  unfold safeIdOf
  by_cases hlong : ("ia-" ++ doc.identifier ++ "-" ++ sanitizeFilename f.name).length > 128
  · rw [if_pos hlong, jsSubstrTo_length]; omega
  · rw [if_neg hlong]; omega

theorem fileTrack_id (env : IAEnv) (doc : IASearchDoc)
    (artist license genre artworkUrl : String) (f : IAFile) :
    (fileTrack env doc artist license genre artworkUrl f).id = safeIdOf doc f := rfl

theorem idInv_processFile (env : IAEnv) (doc : IASearchDoc)
    (artist license genre artworkUrl : String)
    (acc : List String × List TrackRecord) (f : IAFile)
    (h : idInv acc.1 acc.2) :
    idInv (processFile env doc artist license genre artworkUrl acc f).1
      (processFile env doc artist license genre artworkUrl acc f).2 := by
  obtain ⟨hmem, hnd⟩ := h
  unfold processFile
  by_cases hseen : safeIdOf doc f ∈ acc.1
  · rw [if_pos hseen]
    exact ⟨hmem, hnd⟩
  · rw [if_neg hseen]
    constructor
    · intro t ht
      rcases List.mem_append.mp ht with ht | ht
      · rcases hmem t ht with ⟨h1, h2⟩
        exact ⟨List.mem_append_left _ h1, h2⟩
      · rcases List.mem_singleton.mp ht with rfl
        rw [fileTrack_id]
        exact ⟨List.mem_append_right _ (List.mem_singleton.mpr rfl),
          safeIdOf_length doc f⟩
    · rw [List.map_append, List.nodup_append]
      refine ⟨hnd, by simp, ?_⟩
      intro a ha hb
      rcases List.mem_map.mp ha with ⟨t, ht, rfl⟩
      simp only [List.map_cons, List.map_nil, List.mem_singleton, fileTrack_id] at hb
      exact hseen (hb ▸ (hmem t ht).1)

/-- `idInv` over the `(seen, tracks, errors)` accumulator. -/
def idInv3 (acc : List String × List TrackRecord × List String) : Prop :=
  idInv acc.1 acc.2.1

theorem idInv3_processDoc (env : IAEnv)
    (acc : List String × List TrackRecord × List String) (doc : IASearchDoc)
    (h : idInv3 acc) : idInv3 (processDoc env acc doc) := by
  unfold processDoc
  cases env.metadata doc.identifier with
  | throw msg => exact h
  | notOk status => exact h
  | ok meta =>
    by_cases hempty : ((meta.files.filter isAudioFile).filter isUsableFile).isEmpty
    · simp only [hempty, if_pos]; exact h
    · simp only [hempty, if_neg, not_false_eq_true]
      exact foldl_preserve (fun a : List String × List TrackRecord => idInv a.1 a.2)
        (fun a f ha => idInv_processFile env doc _ _ _ _ a f ha) _ (acc.1, acc.2.1) h

theorem idInv3_processQuery (env : IAEnv) (state : IAState)
    (acc : List String × List TrackRecord × List String) (q : Nat)
    (h : idInv3 acc) : idInv3 (processQuery env state acc q) := by
  unfold processQuery
  cases env.search ((state.queryIndex + q) % SEARCH_QUERIES.length)
      ((state.sortIndex + q) % SORT_OPTIONS.length)
      ((if q = 0 then state.pageOffset else 0) / 100 + 1) with
  | throw msg => exact h
  | notOk status => exact h
  | ok docs =>
    exact foldl_preserve idInv3 (fun a d ha => idInv3_processDoc env a d ha)
      _ acc h

/-- **C9.** Every `SourceResult` of the Internet Archive adapter has
pairwise-distinct track ids (the per-run `seen` set suppresses duplicates
from overlapping rotation queries) and every id is at most 128 characters
long (`trackId.substring(0, 128)`). -/
theorem fetchInternetArchive_id_invariants (env : IAEnv) (state : IAState) :
    ((fetchInternetArchive env state).tracks.map TrackRecord.id).Nodup
    ∧ ∀ t ∈ (fetchInternetArchive env state).tracks, t.id.length ≤ 128 := by
  have h : idInv3 ((List.range 3).foldl (processQuery env state) ([], [], [])) :=
    foldl_preserve idInv3 (fun a q ha => idInv3_processQuery env state a q ha)
      _ ([], [], []) ⟨by simp, by simp⟩
  exact ⟨h.2, fun t ht => (h.1 t ht).2⟩

end Spotfly
